import Mathlib

/-!
# cg3lib: face labels of the 2D triangulation wrapper and `MainWindow` bookkeeping

A shallow embedding of

* `src/cg3/cgal/2d/cgal_triangulation2d.h`: `FaceInfo2` with `in_domain`, and the
  two `markDomains` functions the header declares (their bodies are not part of the
  sources at hand and are modelled from the specification, section 4.2);
* `src/cg3/viewer/mainwindow.cpp`: the manager list (`addManager`, `getManager`)
  and the object/checkbox maps (`pushDrawableObject`, `containsDrawableObject`,
  `createCheckBoxAndLinkSignal`, `addContainerCheckBoxes`).

Conventions. A C++ `int` is an `Int`; `%` on `int` truncates towards zero, which is
`Int.tmod`. Conversions between `size_t`, `int` and `unsigned int` are written out
with their `2 ^ 32` wrap-around. Pointers are natural numbers, `nullptr` is `0`.
-/

namespace cg3

/-! ## Machine integers -/

/-- Conversion of an integer value to a 32-bit `int` (two's complement wrap). -/
def toInt32 (n : Int) : Int := (n + 2 ^ 31) % 2 ^ 32 - 2 ^ 31

/-- Conversion of an integer value to a 32-bit `unsigned int`. -/
def toUInt32 (n : Int) : Nat := (n % 2 ^ 32).toNat

namespace cgal
namespace triangulation2d

/-! ## `FaceInfo2` (cgal_triangulation2d.h, lines 33-39) -/

/-- The face label of the header: `int nesting_level`. -/
structure FaceInfo2 where
  nesting_level : Int
  deriving DecidableEq, Repr

/-- The member `in_domain()`, whose body is `return nesting_level%2 == 1;`, with the
truncating remainder of C++. -/
def FaceInfo2.in_domain (fi : FaceInfo2) : Bool :=
  Int.tmod fi.nesting_level 2 == 1

/-! ## The domain classifier `markDomains`

The header declares `markDomains(CDT& ct, CDT::Face_handle start, int index,
std::list<CDT::Edge>& border)` and `markDomains(CDT& cdt)`; the bodies are modelled
from section 4.2 of the specification, over the index-based arena of its design notes.
Nesting levels are `Int`s; the wrap-around of `int` is not modelled. -/

/-- Modelled from the spec: the face record of the triangulation arena (the `CDT`
of CGAL is not part of the sources). A face holds, for each of its (up to three)
edges, the index of the neighbouring face across that edge and whether the edge is
constrained (`true`) or free (`false`). -/
structure Face where
  neighbors : List (Nat × Bool)
  deriving DecidableEq, Repr

/-- Modelled from the spec: a border edge `CDT::Edge` of the deferred list, given as
the face it was found from and the far-side face across it. -/
abbrev Edge := Nat × Nat

/-- Modelled from the spec: the constrained triangulation `CDT` as far as the
classifier reads and writes it: the arena of faces, the index of the outer infinite
face the traversal is seeded from, and the label `info()` of every face. -/
structure CDT where
  faces : List Face
  infinite_face : Nat
  info : Nat → FaceInfo2

/-- Modelled from the spec: the edges of face `f` of the arena, none for an index
outside it. -/
def edgesOf (faces : List Face) (f : Nat) : List (Nat × Bool) :=
  match faces[f]? with
  | some face => face.neighbors
  | none => []

/-- Modelled from the spec: step 4 of the classifier for a free edge, "if that neighbor
is unvisited ... If free, push the neighbor with the same level": the unvisited
neighbours of `fh` across free edges, in edge order. -/
def freeNeighbors (faces : List Face) (info : Nat → FaceInfo2) (fh : Nat) : List Nat :=
  ((edgesOf faces fh).filter
    (fun e => decide ((info e.1).nesting_level = -1) && !e.2)).map (fun e => e.1)

/-- Modelled from the spec: step 4 of the classifier for a constrained edge, "the
edges found to be constraint-crossings ... are collected into a deferred border-edge
list": the edges of `fh` that are constrained and lead to an unvisited neighbour. -/
def borderEdges (faces : List Face) (info : Nat → FaceInfo2) (fh : Nat) : List Edge :=
  ((edgesOf faces fh).filter
    (fun e => decide ((info e.1).nesting_level = -1) && e.2)).map (fun e => (fh, e.1))

/-- Modelled from the spec: the work-queue loop of the helper `markDomains(ct, start,
index, border)`, steps 3 and 4: pop a face; skip it when it is visited, otherwise set
its label to `index`, push its unvisited free neighbours on the queue and append its
constrained edges to unvisited neighbours to `border`. Every face on the queue of one
sweep carries the same level `index`. The first argument bounds the number of
iterations; the result is `none` when the bound is reached with a non-empty queue. -/
def floodLoop (faces : List Face) (index : Int) :
    Nat → (Nat → FaceInfo2) → List Nat → List Edge → Option ((Nat → FaceInfo2) × List Edge)
  | _, info, [], border => some (info, border)
  | 0, _, _ :: _, _ => none
  | fuel + 1, info, fh :: queue, border =>
    if (info fh).nesting_level = -1 then
      let info1 := Function.update info fh ⟨index⟩
      floodLoop faces index fuel info1 (queue ++ freeNeighbors faces info1 fh)
        (border ++ borderEdges faces info1 fh)
    else floodLoop faces index fuel info queue border

/-- The iteration bound given to one sweep: one pop for the start face, and per face
one pop for each edge that can push it. -/
def floodFuel (faces : List Face) : Nat :=
  ((List.range faces.length).map (fun f => 1 + (edgesOf faces f).length)).sum + 1

/-- The iteration bound given to the border-list loop: the number of face edges. -/
def borderFuel (faces : List Face) : Nat :=
  ((List.range faces.length).map (fun f => (edgesOf faces f).length)).sum

/-- Modelled from the spec: the helper `markDomains(ct, start, index, border)` declared
in the header: one same-level sweep seeded with `start` at level `index`, which
appends the constraint crossings it meets to `border`. The triangulation `ct` is
passed as its face arena and its labels. -/
def markDomainsFrom (faces : List Face) (info : Nat → FaceInfo2) (start : Nat) (index : Int)
    (border : List Edge) : Option ((Nat → FaceInfo2) × List Edge) :=
  floodLoop faces index (floodFuel faces) info [start] border

/-- Modelled from the spec: step 5 of the classifier, the processing of the deferred
border-edge list in the order the edges were collected: "for each border edge whose
far-side face is still unvisited, seed it at level + 1", the level being the label of
the face the edge was found from; the sweep appends its own crossings to the list. -/
def borderLoop (faces : List Face) :
    Nat → (Nat → FaceInfo2) → List Edge → Option (Nat → FaceInfo2)
  | _, info, [] => some info
  | 0, _, _ :: _ => none
  | fuel + 1, info, e :: border =>
    if (info e.2).nesting_level = -1 then
      match markDomainsFrom faces info e.2 ((info e.1).nesting_level + 1) border with
      | none => none
      | some (info1, border1) => borderLoop faces fuel info1 border1
    else borderLoop faces fuel info border

/-- Modelled from the spec: the classifier `markDomains(cdt)` declared in the header
(its body is not part of the sources): every face is set to the sentinel `-1`
(step 1), the outer infinite face is swept at level `0` (step 2), then the border
list is processed (steps 5 and 6). -/
def markDomains (cdt : CDT) : Option CDT :=
  match markDomainsFrom cdt.faces (fun _ => ⟨-1⟩) cdt.infinite_face 0 [] with
  | none => none
  | some (info, border) =>
    (borderLoop cdt.faces (borderFuel cdt.faces) info border).map
      (fun info1 => { cdt with info := info1 })

/-- The nesting levels of the faces of the arena, in index order. -/
def levels (cdt : CDT) : List Int :=
  (List.range cdt.faces.length).map (fun f => (cdt.info f).nesting_level)

/-! ### Well-formedness -/

/-- The adjacency of the arena is symmetric: an edge of face `f` towards `g` is also
an edge of `g` towards `f`, with the same constrained flag. -/
def CDT.AdjacencySymmetric (cdt : CDT) : Prop :=
  ∀ f < cdt.faces.length, ∀ e ∈ edgesOf cdt.faces f, (f, e.2) ∈ edgesOf cdt.faces e.1

instance (cdt : CDT) : Decidable cdt.AdjacencySymmetric := by
  unfold CDT.AdjacencySymmetric
  infer_instance

/-- The constrained edges are closed boundaries: the faces fall into two classes `p`
(material and void) and an edge separates the classes exactly when it is
constrained. -/
def CDT.ClosedBoundaries (cdt : CDT) (p : Nat → Bool) : Prop :=
  ∀ f < cdt.faces.length, ∀ e ∈ edgesOf cdt.faces f, (p e.1 = p f ↔ e.2 = false)

instance (cdt : CDT) (p : Nat → Bool) : Decidable (cdt.ClosedBoundaries p) := by
  unfold CDT.ClosedBoundaries
  infer_instance

/-- The symmetry of the adjacency, stated for every index. -/
def AdjacencySymmetric (faces : List Face) : Prop :=
  ∀ f g c, (g, c) ∈ edgesOf faces f → (f, c) ∈ edgesOf faces g

/-- The two classes of faces, stated for every index. -/
def TwoColouring (faces : List Face) (p : Nat → Bool) : Prop :=
  ∀ f g c, (g, c) ∈ edgesOf faces f → (p g = p f ↔ c = false)

/-! ### Measures and loop invariants -/

/-- The sum of the weights `w f` of the unvisited faces `f < n`. -/
def unvisitedWeight (w : Nat → Nat) (info : Nat → FaceInfo2) (n : Nat) : Nat :=
  ((List.range n).map (fun f => if (info f).nesting_level = -1 then w f else 0)).sum

/-- The quantity that decreases with every iteration of a sweep. -/
def floodMeasure (faces : List Face) (info : Nat → FaceInfo2) (queue : List Nat) : Nat :=
  unvisitedWeight (fun f => 1 + (edgesOf faces f).length) info faces.length + queue.length

/-- The quantity that decreases with every border edge taken from the list. -/
def borderMeasure (faces : List Face) (info : Nat → FaceInfo2) (border : List Edge) : Nat :=
  unvisitedWeight (fun f => (edgesOf faces f).length) info faces.length + border.length

/-- The invariant of a sweep at level `k`: labels lie in `-1 .. k`, the faces the
border edges were found from have level `k - 1` or `k` in list order, every edge
from a visited to an unvisited face is pending (in the border list or the queue), and
the level relations hold between visited faces. -/
structure FloodInv (faces : List Face) (k : Int) (info : Nat → FaceInfo2)
    (queue : List Nat) (border : List Edge) : Prop where
  range : ∀ f, -1 ≤ (info f).nesting_level ∧ (info f).nesting_level ≤ k
  borderNear : ∀ e ∈ border,
    (info e.1).nesting_level ≠ -1 ∧ k - 1 ≤ (info e.1).nesting_level
  sorted : border.Pairwise (fun a b => (info a.1).nesting_level ≤ (info b.1).nesting_level)
  pending : ∀ f g, (g, true) ∈ edgesOf faces f → (info f).nesting_level ≠ -1 →
    (info g).nesting_level = -1 →
    ((f, g) ∈ border ∨ g ∈ queue) ∧ k - 1 ≤ (info f).nesting_level
  front : ∀ f g, (g, false) ∈ edgesOf faces f → (info f).nesting_level ≠ -1 →
    (info g).nesting_level = -1 → g ∈ queue ∧ (info f).nesting_level = k
  freeEq : ∀ f g, (g, false) ∈ edgesOf faces f → (info f).nesting_level ≠ -1 →
    (info g).nesting_level ≠ -1 → (info f).nesting_level = (info g).nesting_level
  consNear : ∀ f g, (g, true) ∈ edgesOf faces f → (info f).nesting_level ≠ -1 →
    (info g).nesting_level ≠ -1 →
    (info f).nesting_level - (info g).nesting_level ≤ 1 ∧
    (info g).nesting_level - (info f).nesting_level ≤ 1

/-- The parity invariant of a sweep, for two classes of faces `p`: a visited face
has an even level exactly when it is in the class of the seed face `root`. -/
structure ParityInv (faces : List Face) (p : Nat → Bool) (root : Nat) (k : Int)
    (info : Nat → FaceInfo2) (queue : List Nat) (border : List Edge) : Prop where
  labelled : ∀ f, (info f).nesting_level ≠ -1 →
    ((info f).nesting_level % 2 = 0 ↔ p f = p root)
  queued : ∀ g ∈ queue, (k % 2 = 0 ↔ p g = p root)
  borderEdge : ∀ e ∈ border,
    (e.2, true) ∈ edgesOf faces e.1 ∧ (info e.1).nesting_level ≠ -1

/-- The invariant of the border-list loop, between two sweeps. -/
structure OuterInv (faces : List Face) (info : Nat → FaceInfo2) (border : List Edge) :
    Prop where
  lower : ∀ f, -1 ≤ (info f).nesting_level
  borderNear : ∀ e ∈ border, (info e.1).nesting_level ≠ -1 ∧
    ∀ f, (info f).nesting_level ≤ (info e.1).nesting_level + 1
  sorted : border.Pairwise (fun a b => (info a.1).nesting_level ≤ (info b.1).nesting_level)
  pending : ∀ f g, (g, true) ∈ edgesOf faces f → (info f).nesting_level ≠ -1 →
    (info g).nesting_level = -1 → (f, g) ∈ border
  closed : ∀ f g, (g, false) ∈ edgesOf faces f → (info f).nesting_level ≠ -1 →
    (info g).nesting_level ≠ -1
  freeEq : ∀ f g, (g, false) ∈ edgesOf faces f → (info f).nesting_level ≠ -1 →
    (info g).nesting_level ≠ -1 → (info f).nesting_level = (info g).nesting_level
  consNear : ∀ f g, (g, true) ∈ edgesOf faces f → (info f).nesting_level ≠ -1 →
    (info g).nesting_level ≠ -1 →
    (info f).nesting_level - (info g).nesting_level ≤ 1 ∧
    (info g).nesting_level - (info f).nesting_level ≤ 1

/-- The parity invariant of the border-list loop. -/
structure OuterParity (faces : List Face) (p : Nat → Bool) (root : Nat)
    (info : Nat → FaceInfo2) (border : List Edge) : Prop where
  labelled : ∀ f, (info f).nesting_level ≠ -1 →
    ((info f).nesting_level % 2 = 0 ↔ p f = p root)
  borderEdge : ∀ e ∈ border,
    (e.2, true) ∈ edgesOf faces e.1 ∧ (info e.1).nesting_level ≠ -1

/-! ### Example triangulations -/

/-- The constrained triangulation of three points `p0 p1 p2` with the single
constraint `p0 p1`: face `0` is the triangle, faces `1`, `2`, `3` are the infinite
faces across `p0 p1`, `p1 p2`, `p2 p0`. -/
def oneConstraint : CDT :=
  { faces := [⟨[(1, true), (2, false), (3, false)]⟩,
              ⟨[(0, true), (2, false), (3, false)]⟩,
              ⟨[(0, false), (1, false), (3, false)]⟩,
              ⟨[(0, false), (1, false), (2, false)]⟩],
    infinite_face := 1,
    info := fun _ => ⟨0⟩ }

/-- A triangle `A B C` with a triangular hole `a b c`: faces `0 1 2` are the infinite
faces across `AB`, `BC`, `CA`; faces `3 .. 8` are the six triangles `ABb`, `Aba`,
`BCc`, `Bcb`, `CAa`, `Cac` of the ring; face `9` is the hole `abc`. The constrained
edges are the three sides of each of the two triangles. -/
def annulus : CDT :=
  { faces := [⟨[(3, true), (1, false), (2, false)]⟩,
              ⟨[(5, true), (0, false), (2, false)]⟩,
              ⟨[(7, true), (0, false), (1, false)]⟩,
              ⟨[(0, true), (6, false), (4, false)]⟩,
              ⟨[(3, false), (9, true), (7, false)]⟩,
              ⟨[(1, true), (8, false), (6, false)]⟩,
              ⟨[(5, false), (9, true), (3, false)]⟩,
              ⟨[(2, true), (4, false), (8, false)]⟩,
              ⟨[(7, false), (9, true), (5, false)]⟩,
              ⟨[(4, true), (6, true), (8, true)]⟩],
    infinite_face := 0,
    info := fun _ => ⟨0⟩ }

end triangulation2d
end cgal

namespace viewer

/-! ## `MainWindow` (mainwindow.cpp) -/

/-- A `QFrame*`. -/
abbrev QFramePtr := Nat

/-- A `const DrawableObject*`. -/
abbrev DrawableObjectPtr := Nat

/-- The null pointer. -/
def nullptr : Nat := 0

/-- The `QCheckBox` as `createCheckBoxAndLinkSignal` allocates it, given by what is
set there: `setText(checkBoxName)` and `setChecked(isChecked)`. Later calls on the
widget (`setTristate`, `setCheckState`, `setVisible`) change the widget behind the
pointer, not the map that holds the pointer. -/
structure QCheckBox where
  text : String
  checked : Bool
  deriving DecidableEq, Repr

/-- What `pushDrawableObject` and `addContainerCheckBoxes` read from a
`DrawableContainer`: for each contained object `(*container)[i]`, `objectName(i)` and
`(*container)[i]->isVisible()`, in index order `0 .. size()-1`. -/
abbrev DrawableContainer := List (DrawableObjectPtr × String × Bool)

/-- The members of `MainWindow` behind `addManager`, `getManager`,
`pushDrawableObject` and `containsDrawableObject`:
`std::vector<QFrame*> managers`, `std::map<int, QCheckBox*> checkBoxes` (one entry
per key), `boost::bimap<int, const DrawableObject*> mapObjects` and `int nCheckBoxes`.
The canvas, the layouts and the signal connections are Qt objects outside these
members. -/
structure MainWindow where
  managers : List QFramePtr
  checkBoxes : List (Int × QCheckBox)
  mapObjects : List (Int × DrawableObjectPtr)
  nCheckBoxes : Int
  deriving DecidableEq, Repr

/-- The members as the constructor leaves them: empty containers, `nCheckBoxes(0)`. -/
def MainWindow.init : MainWindow :=
  { managers := [], checkBoxes := [], mapObjects := [], nCheckBoxes := 0 }

/-- Assignment `m[k] = v` on a `std::map<int, T>`: the entry of key `k` is replaced
or created. -/
def mapAssign {α : Type} (m : List (Int × α)) (k : Int) (v : α) : List (Int × α) :=
  if m.any (fun e => e.1 == k) then m.map (fun e => if e.1 == k then (k, v) else e)
  else m ++ [(k, v)]

/-- The call `mapObjects.insert(value_type(k, obj))` on a `boost::bimap` whose two
sides are both sets: the pair is stored unless its left key or its right key is
already present, in which case the bimap is unchanged. -/
def bimapInsert (m : List (Int × DrawableObjectPtr)) (k : Int) (obj : DrawableObjectPtr) :
    List (Int × DrawableObjectPtr) :=
  if m.any (fun e => e.1 == k || e.2 == obj) then m else m ++ [(k, obj)]

/-- The test `mapObjects.right.find(obj) != mapObjects.right.end()`. -/
def bimapRightContains (m : List (Int × DrawableObjectPtr)) (obj : DrawableObjectPtr) : Bool :=
  m.any (fun e => e.2 == obj)

/-- The function `MainWindow::createCheckBoxAndLinkSignal` (lines 520-539): a new
checkbox is stored under the key `nCheckBoxes`, the pair `(nCheckBoxes, obj)` is
inserted in `mapObjects` and `nCheckBoxes` is incremented (`nCheckBoxes++` on an
`int`; the overflow at `INT_MAX`, undefined in C++, is not modelled). -/
def MainWindow.createCheckBoxAndLinkSignal (w : MainWindow) (obj : DrawableObjectPtr)
    (checkBoxName : String) (isChecked : Bool) : MainWindow :=
  { w with
    checkBoxes := mapAssign w.checkBoxes w.nCheckBoxes ⟨checkBoxName, isChecked⟩
    mapObjects := bimapInsert w.mapObjects w.nCheckBoxes obj
    nCheckBoxes := w.nCheckBoxes + 1 }

/-- The function `MainWindow::addContainerCheckBoxes` (lines 541-558): one
`createCheckBoxAndLinkSignal` per contained object, in index order. -/
def MainWindow.addContainerCheckBoxes (w : MainWindow) (container : DrawableContainer) :
    MainWindow :=
  container.foldl (fun acc item => acc.createCheckBoxAndLinkSignal item.1 item.2.1 item.2.2) w

/-- The function `MainWindow::pushDrawableObject` (lines 96-137). The argument
`asContainer obj` is the result of `dynamic_cast<const DrawableContainer*>(obj)`:
`none` when the cast gives a null pointer, the container contents otherwise. -/
def MainWindow.pushDrawableObject (asContainer : DrawableObjectPtr → Option DrawableContainer)
    (w : MainWindow) (obj : DrawableObjectPtr) (checkBoxName : String)
    (checkBoxChecked : Bool) : MainWindow :=
  if obj ≠ nullptr then
    let w1 := w.createCheckBoxAndLinkSignal obj checkBoxName checkBoxChecked
    match asContainer obj with
    | some cont => w1.addContainerCheckBoxes cont
    | none => w1
  else w

/-- The function `MainWindow::containsDrawableObject` (lines 190-195). -/
def MainWindow.containsDrawableObject (w : MainWindow) (obj : DrawableObjectPtr) : Bool :=
  bimapRightContains w.mapObjects obj

/-- The function `MainWindow::addManager` (lines 294-305): `f->show()` dereferences
`f`, so a null `f` has no result; otherwise `f` is appended to `managers` and the
value returned is `(int)managers.size()-1` converted to the `unsigned int` return
type. The parameter `parent` is assigned and never read, and the calls on
`ui->toolBox` act on the Qt widget only. -/
def MainWindow.addManager (w : MainWindow) (f : QFramePtr) ( _name : String) :
    Option (MainWindow × Nat) :=
  if f = nullptr then none
  else
    let managers := w.managers ++ [f]
    some ({ w with managers := managers }, toUInt32 (toInt32 managers.length - 1))

/-- The function `MainWindow::getManager` (lines 312-316):
`if (i < managers.size()) return managers[i]; else return nullptr;`. -/
def MainWindow.getManager (w : MainWindow) (i : Nat) : QFramePtr :=
  if h : i < w.managers.length then w.managers[i] else nullptr

/-- Every left key of `mapObjects` is below the counter `nCheckBoxes`: keys are only
ever taken from the counter, which is then incremented. -/
def MainWindow.KeysBelowCounter (w : MainWindow) : Prop :=
  ∀ e ∈ w.mapObjects, e.1 < w.nCheckBoxes

instance (w : MainWindow) : Decidable w.KeysBelowCounter := by
  unfold MainWindow.KeysBelowCounter
  infer_instance

/-- A window with one manager, the frame `7`. -/
def oneManager : MainWindow :=
  { managers := [7], checkBoxes := [], mapObjects := [], nCheckBoxes := 0 }

/-- A window that shows the object `5` under the key `0`. -/
def oneObject : MainWindow :=
  { managers := [], checkBoxes := [(0, ⟨"a", true⟩)], mapObjects := [(0, 5)],
    nCheckBoxes := 1 }

/-- A heap in which the object `8` is a container of the objects `5` and `6`, and
no other object is a container. -/
def containerAtEight (p : DrawableObjectPtr) : Option DrawableContainer :=
  if p = 8 then some [(5, "x", true), (6, "y", false)] else none

end viewer

/-! ## Theorems -/

namespace cgal
namespace triangulation2d

/-! ### `in_domain` -/

/-- C1, as the code has it: for every integer nesting level `n`, `in_domain()` returns
true exactly when `n` is odd and not negative; on a negative level, odd or even, it
returns false. -/
theorem in_domain_iff_odd_nonneg (n : Int) :
    FaceInfo2.in_domain ⟨n⟩ = true ↔ (0 ≤ n ∧ Odd n) := by
  simp only [FaceInfo2.in_domain, beq_iff_eq, Int.odd_iff]
  constructor
  · intro h
    by_cases hn : 0 ≤ n
    · refine ⟨hn, ?_⟩
      rw [Int.tmod_eq_emod hn (by decide)] at h
      exact h
    · exfalso
      have h2 : Int.tmod n 2 ≤ 0 := by
        cases n with
        | ofNat m => exact absurd (Int.ofNat_nonneg m) hn
        | negSucc m =>
          show -((((m + 1) % 2 : Nat)) : Int) ≤ 0
          omega
      omega
  · rintro ⟨hn, h⟩
    rw [Int.tmod_eq_emod hn (by decide)]
    exact h

/-- C1, the claim as stated fails: the level `-1` is odd and `in_domain()` is false. -/
theorem in_domain_neg_one_odd_false :
    Odd (-1 : Int) ∧ FaceInfo2.in_domain ⟨-1⟩ = false := by
  refine ⟨⟨-1, by decide⟩, by decide⟩

/-- C2: on an even nesting level `in_domain()` returns false. -/
theorem in_domain_false_of_even (n : Int) (h : Even n) :
    FaceInfo2.in_domain ⟨n⟩ = false := by
  obtain ⟨k, rfl⟩ := h
  have h1 : Int.tmod (k + k) 2 = 0 := by
    have : k + k = 2 * k := by ring
    rw [this, Int.mul_tmod_right]
  simp [FaceInfo2.in_domain, h1]

/-- C2 at the outer region: level `0` is even and not in the domain. -/
theorem in_domain_false_of_even_witness :
    Even (0 : Int) ∧ FaceInfo2.in_domain ⟨0⟩ = false :=
  ⟨⟨0, by decide⟩, in_domain_false_of_even 0 ⟨0, by decide⟩⟩

/-! ### Termination of the sweep -/

/-- The weight of the unvisited faces is at most the weight of all faces. -/
theorem unvisitedWeight_le (w : Nat → Nat) (info : Nat → FaceInfo2) (n : Nat) :
    unvisitedWeight w info n ≤ ((List.range n).map w).sum := by
  unfold unvisitedWeight
  induction n with
  | zero => simp
  | succ n ih =>
    simp only [List.range_succ, List.map_append, List.sum_append, List.map_cons, List.map_nil,
      List.sum_cons, List.sum_nil, Nat.add_zero]
    split <;> omega

/-- Labelling an unvisited face removes its weight from the sum. -/
theorem unvisitedWeight_update (w : Nat → Nat) (info : Nat → FaceInfo2) (fh : Nat) (v : Int)
    (hfh : (info fh).nesting_level = -1) (hv : v ≠ -1) (n : Nat) :
    unvisitedWeight w (Function.update info fh ⟨v⟩) n + (if fh < n then w fh else 0)
      = unvisitedWeight w info n := by
  unfold unvisitedWeight
  induction n with
  | zero => simp
  | succ n ih =>
    simp only [List.range_succ, List.map_append, List.sum_append, List.map_cons, List.map_nil,
      List.sum_cons, List.sum_nil, Nat.add_zero]
    by_cases h1 : n = fh
    · subst h1
      simp only [Function.update_same, hfh, if_true, if_neg hv, Nat.lt_irrefl, if_false,
        Nat.lt_succ_self] at ih ⊢
      omega
    · rw [Function.update_noteq h1]
      by_cases h2 : fh < n
      · have h3 : fh < n + 1 := by omega
        simp only [h2, h3, if_true] at ih ⊢
        omega
      · have h3 : ¬ fh < n + 1 := by omega
        simp only [h2, h3, if_false] at ih ⊢
        omega

/-- An index outside the arena has no edges. -/
theorem edgesOf_of_le (faces : List Face) (f : Nat) (h : faces.length ≤ f) :
    edgesOf faces f = [] := by
  unfold edgesOf
  rw [List.getElem?_eq_none h]

/-- Two filters with exclusive conditions keep no more elements than the list has. -/
theorem filter_split_length {α : Type} (a b : α → Bool) (l : List α) :
    (l.filter (fun e => a e && !b e)).length + (l.filter (fun e => a e && b e)).length
      ≤ l.length := by
  induction l with
  | nil => simp
  | cons x xs ih =>
    simp only [List.filter_cons, List.length_cons]
    cases a x <;> cases b x <;> simp <;> omega

/-- A face pushes at most one entry (on the queue or the border list) per edge. -/
theorem pushed_length_le (faces : List Face) (info : Nat → FaceInfo2) (fh : Nat) :
    (freeNeighbors faces info fh).length + (borderEdges faces info fh).length
      ≤ (edgesOf faces fh).length := by
  unfold freeNeighbors borderEdges
  rw [List.length_map, List.length_map]
  exact filter_split_length (fun e : Nat × Bool => decide ((info e.1).nesting_level = -1))
    (fun e : Nat × Bool => e.2) _

/-- A sweep with a level other than the sentinel and with enough iterations returns:
any property `P` kept by the two kinds of step holds at the end, with an empty
queue, and the border measure has not grown. -/
theorem floodLoop_spec (faces : List Face) (index : Int) (hidx : index ≠ -1)
    (P : (Nat → FaceInfo2) → List Nat → List Edge → Prop)
    (hlabel : ∀ info fh q b, P info (fh :: q) b → (info fh).nesting_level = -1 →
      P (Function.update info fh ⟨index⟩)
        (q ++ freeNeighbors faces (Function.update info fh ⟨index⟩) fh)
        (b ++ borderEdges faces (Function.update info fh ⟨index⟩) fh))
    (hskip : ∀ info fh q b, P info (fh :: q) b → (info fh).nesting_level ≠ -1 → P info q b) :
    ∀ fuel info q b, P info q b → floodMeasure faces info q ≤ fuel →
      ∃ info1 b1, floodLoop faces index fuel info q b = some (info1, b1) ∧ P info1 [] b1 ∧
        borderMeasure faces info1 b1 ≤ borderMeasure faces info b := by
  intro fuel
  induction fuel with
  | zero =>
    intro info q b hP hm
    cases q with
    | nil => exact ⟨info, b, rfl, hP, Nat.le_refl _⟩
    | cons fh q =>
      simp [floodMeasure] at hm
  | succ fuel ih =>
    intro info q b hP hm
    cases q with
    | nil => exact ⟨info, b, rfl, hP, Nat.le_refl _⟩
    | cons fh q =>
      by_cases hfh : (info fh).nesting_level = -1
      · have hw1 := unvisitedWeight_update (fun f => 1 + (edgesOf faces f).length) info fh index
          hfh hidx faces.length
        have hw2 := unvisitedWeight_update (fun f => (edgesOf faces f).length) info fh index
          hfh hidx faces.length
        have hlen := pushed_length_le faces (Function.update info fh ⟨index⟩) fh
        have hout : ¬ fh < faces.length → (edgesOf faces fh).length = 0 := by
          intro h
          rw [edgesOf_of_le faces fh (by omega)]
          rfl
        obtain ⟨info1, b1, hrun, hP1, hb1⟩ := ih _ _ _ (hlabel info fh q b hP hfh) (by
          simp only [floodMeasure, List.length_append, List.length_cons] at hm ⊢
          by_cases hr : fh < faces.length
          · simp only [hr, if_true] at hw1
            omega
          · have := hout hr
            simp only [hr, if_false] at hw1
            omega)
        refine ⟨info1, b1, ?_, hP1, ?_⟩
        · simp only [floodLoop, if_pos hfh]
          exact hrun
        · refine Nat.le_trans hb1 ?_
          simp only [borderMeasure, List.length_append]
          by_cases hr : fh < faces.length
          · simp only [hr, if_true] at hw2
            omega
          · have := hout hr
            simp only [hr, if_false] at hw2
            omega
      · obtain ⟨info1, b1, hrun, hP1, hb1⟩ := ih _ _ _ (hskip info fh q b hP hfh) (by
          simp only [floodMeasure, List.length_cons] at hm ⊢
          omega)
        refine ⟨info1, b1, ?_, hP1, hb1⟩
        simp only [floodLoop, if_neg hfh]
        exact hrun


/-! ### Invariants of the sweep and of the border loop -/

/-- The symmetry over the arena gives the symmetry for every index. -/
theorem adjacencySymmetric_of (cdt : CDT) (h : cdt.AdjacencySymmetric) :
    AdjacencySymmetric cdt.faces := by
  intro f g c hmem
  by_cases hf : f < cdt.faces.length
  · exact h f hf (g, c) hmem
  · rw [edgesOf_of_le cdt.faces f (by omega)] at hmem
    cases hmem

/-- Closed boundaries over the arena give the two classes for every index. -/
theorem twoColouring_of (cdt : CDT) (p : Nat → Bool) (h : cdt.ClosedBoundaries p) :
    TwoColouring cdt.faces p := by
  intro f g c hmem
  by_cases hf : f < cdt.faces.length
  · exact h f hf (g, c) hmem
  · rw [edgesOf_of_le cdt.faces f (by omega)] at hmem
    cases hmem

/-- The level read after one face was labelled. -/
theorem level_update (info : Nat → FaceInfo2) (fh : Nat) (k : Int) (f : Nat) :
    (Function.update info fh ⟨k⟩ f).nesting_level
      = if f = fh then k else (info f).nesting_level := by
  rw [Function.update_apply]
  split <;> rfl

/-- Membership in the pushed free neighbours. -/
theorem mem_freeNeighbors (faces : List Face) (info : Nat → FaceInfo2) (fh g : Nat) :
    g ∈ freeNeighbors faces info fh ↔
      (g, false) ∈ edgesOf faces fh ∧ (info g).nesting_level = -1 := by
  unfold freeNeighbors
  simp only [List.mem_map, List.mem_filter, Bool.and_eq_true, decide_eq_true_eq,
    Bool.not_eq_true']
  constructor
  · rintro ⟨⟨g1, c⟩, ⟨hmem, hlev, hc⟩, rfl⟩
    simp only at hc hlev ⊢
    subst hc
    exact ⟨hmem, hlev⟩
  · rintro ⟨hmem, hlev⟩
    exact ⟨(g, false), ⟨hmem, hlev, rfl⟩, rfl⟩

/-- Membership in the collected border edges. -/
theorem mem_borderEdges (faces : List Face) (info : Nat → FaceInfo2) (fh : Nat) (e : Edge) :
    e ∈ borderEdges faces info fh ↔
      e.1 = fh ∧ (e.2, true) ∈ edgesOf faces fh ∧ (info e.2).nesting_level = -1 := by
  unfold borderEdges
  simp only [List.mem_map, List.mem_filter, Bool.and_eq_true, decide_eq_true_eq]
  constructor
  · rintro ⟨⟨g1, c⟩, ⟨hmem, hlev, hc⟩, rfl⟩
    simp only at hc hlev ⊢
    subst hc
    exact ⟨trivial, hmem, hlev⟩
  · rintro ⟨h1, hmem, hlev⟩
    refine ⟨(e.2, true), ⟨hmem, hlev, rfl⟩, ?_⟩
    cases e
    simp only at h1 ⊢
    rw [h1]

/-- Labelling the popped face keeps the sweep invariant. -/
theorem floodInv_label (faces : List Face) (hsym : AdjacencySymmetric faces) (k : Int)
    (hk : 0 ≤ k) (info : Nat → FaceInfo2) (fh : Nat) (q : List Nat) (b : List Edge)
    (h : FloodInv faces k info (fh :: q) b) (hfh : (info fh).nesting_level = -1) :
    FloodInv faces k (Function.update info fh ⟨k⟩)
      (q ++ freeNeighbors faces (Function.update info fh ⟨k⟩) fh)
      (b ++ borderEdges faces (Function.update info fh ⟨k⟩) fh) := by
  have hnear : ∀ e ∈ b, e.1 ≠ fh := by
    intro e he heq
    exact (h.borderNear e he).1 (heq ▸ hfh)
  constructor
  · intro f
    rw [level_update]
    split
    · omega
    · exact h.range f
  · intro e he
    rw [level_update]
    rcases List.mem_append.mp he with he | he
    · rw [if_neg (hnear e he)]
      exact h.borderNear e he
    · rw [if_pos ((mem_borderEdges _ _ _ _).mp he).1]
      omega
  · rw [List.pairwise_append]
    refine ⟨?_, ?_, ?_⟩
    · refine List.Pairwise.imp_of_mem ?_ h.sorted
      intro x y hx hy hxy
      rw [level_update, level_update, if_neg (hnear x hx), if_neg (hnear y hy)]
      exact hxy
    · rw [List.pairwise_iff_forall_sublist]
      intro x y hxy
      have hx := hxy.subset (List.mem_cons_self _ _)
      have hy := hxy.subset (List.mem_cons_of_mem _ (List.mem_singleton_self _))
      rw [level_update, level_update, if_pos ((mem_borderEdges _ _ _ _).mp hx).1,
        if_pos ((mem_borderEdges _ _ _ _).mp hy).1]
    · intro x hx y hy
      rw [level_update, level_update, if_neg (hnear x hx),
        if_pos ((mem_borderEdges _ _ _ _).mp hy).1]
      exact (h.range x.1).2
  · intro f g hmem hf hg
    rw [level_update] at hf hg ⊢
    have hgne : g ≠ fh := by
      intro heq
      rw [if_pos heq] at hg
      omega
    rw [if_neg hgne] at hg
    by_cases hffh : f = fh
    · subst hffh
      rw [if_pos rfl]
      refine ⟨Or.inl (List.mem_append_right _ ?_), by omega⟩
      rw [mem_borderEdges]
      refine ⟨rfl, hmem, ?_⟩
      rw [level_update, if_neg hgne]
      exact hg
    · rw [if_neg hffh] at hf ⊢
      obtain ⟨h1, h2⟩ := h.pending f g hmem hf hg
      refine ⟨?_, h2⟩
      rcases h1 with h1 | h1
      · exact Or.inl (List.mem_append_left _ h1)
      · rcases List.mem_cons.mp h1 with h1 | h1
        · exact absurd h1 hgne
        · exact Or.inr (List.mem_append_left _ h1)
  · intro f g hmem hf hg
    rw [level_update] at hf hg ⊢
    have hgne : g ≠ fh := by
      intro heq
      rw [if_pos heq] at hg
      omega
    rw [if_neg hgne] at hg
    by_cases hffh : f = fh
    · subst hffh
      rw [if_pos rfl]
      refine ⟨List.mem_append_right _ ?_, rfl⟩
      rw [mem_freeNeighbors]
      refine ⟨hmem, ?_⟩
      rw [level_update, if_neg hgne]
      exact hg
    · rw [if_neg hffh] at hf ⊢
      obtain ⟨h1, h2⟩ := h.front f g hmem hf hg
      refine ⟨?_, h2⟩
      rcases List.mem_cons.mp h1 with h1 | h1
      · exact absurd h1 hgne
      · exact List.mem_append_left _ h1
  · intro f g hmem hf hg
    rw [level_update] at hf hg ⊢
    rw [level_update]
    by_cases hffh : f = fh <;> by_cases hgfh : g = fh
    · rw [if_pos hffh, if_pos hgfh]
    · rw [if_neg hgfh] at hg
      rw [if_pos hffh, if_neg hgfh]
      subst hffh
      exact ((h.front g f (hsym _ _ _ hmem) hg hfh).2).symm
    · rw [if_neg hffh] at hf
      rw [if_neg hffh, if_pos hgfh]
      subst hgfh
      exact (h.front f g hmem hf hfh).2
    · rw [if_neg hffh] at hf
      rw [if_neg hgfh] at hg
      rw [if_neg hffh, if_neg hgfh]
      exact h.freeEq f g hmem hf hg
  · intro f g hmem hf hg
    rw [level_update] at hf hg ⊢
    rw [level_update]
    by_cases hffh : f = fh <;> by_cases hgfh : g = fh
    · rw [if_pos hffh, if_pos hgfh]
      omega
    · rw [if_neg hgfh] at hg
      rw [if_pos hffh, if_neg hgfh]
      subst hffh
      have h1 := (h.pending g f (hsym _ _ _ hmem) hg hfh).2
      have h2 := (h.range g).2
      omega
    · rw [if_neg hffh] at hf
      rw [if_neg hffh, if_pos hgfh]
      subst hgfh
      have h1 := (h.pending f g hmem hf hfh).2
      have h2 := (h.range f).2
      omega
    · rw [if_neg hffh] at hf
      rw [if_neg hgfh] at hg
      rw [if_neg hffh, if_neg hgfh]
      exact h.consNear f g hmem hf hg

/-- Skipping a visited face keeps the sweep invariant. -/
theorem floodInv_skip (faces : List Face) (k : Int)
    (info : Nat → FaceInfo2) (fh : Nat) (q : List Nat) (b : List Edge)
    (h : FloodInv faces k info (fh :: q) b) (hfh : (info fh).nesting_level ≠ -1) :
    FloodInv faces k info q b := by
  refine ⟨h.range, h.borderNear, h.sorted, ?_, ?_, h.freeEq, h.consNear⟩
  · intro f g hmem hf hg
    obtain ⟨h1, h2⟩ := h.pending f g hmem hf hg
    refine ⟨?_, h2⟩
    rcases h1 with h1 | h1
    · exact Or.inl h1
    · rcases List.mem_cons.mp h1 with h1 | h1
      · exact absurd (h1 ▸ hg) hfh
      · exact Or.inr h1
  · intro f g hmem hf hg
    obtain ⟨h1, h2⟩ := h.front f g hmem hf hg
    refine ⟨?_, h2⟩
    rcases List.mem_cons.mp h1 with h1 | h1
    · exact absurd (h1 ▸ hg) hfh
    · exact h1


/-- Labelling the popped face keeps the parity invariant. -/
theorem parityInv_label (faces : List Face) (p : Nat → Bool) (hcol : TwoColouring faces p)
    (root : Nat) (k : Int) (hk : 0 ≤ k) (info : Nat → FaceInfo2) (fh : Nat) (q : List Nat)
    (b : List Edge) (h : ParityInv faces p root k info (fh :: q) b)
    (hfh : (info fh).nesting_level = -1) :
    ParityInv faces p root k (Function.update info fh ⟨k⟩)
      (q ++ freeNeighbors faces (Function.update info fh ⟨k⟩) fh)
      (b ++ borderEdges faces (Function.update info fh ⟨k⟩) fh) := by
  constructor
  · intro f hf
    rw [level_update] at hf ⊢
    by_cases hffh : f = fh
    · rw [if_pos hffh, hffh]
      exact h.queued fh (List.mem_cons_self _ _)
    · rw [if_neg hffh] at hf ⊢
      exact h.labelled f hf
  · intro g hg
    rcases List.mem_append.mp hg with hg | hg
    · exact h.queued g (List.mem_cons_of_mem _ hg)
    · have h1 := ((mem_freeNeighbors _ _ _ _).mp hg).1
      have h2 : p g = p fh := (hcol fh g false h1).mpr rfl
      rw [h2]
      exact h.queued fh (List.mem_cons_self _ _)
  · intro e he
    rw [level_update]
    rcases List.mem_append.mp he with he | he
    · have h1 := h.borderEdge e he
      have h2 : e.1 ≠ fh := fun heq => h1.2 (heq ▸ hfh)
      rw [if_neg h2]
      exact h1
    · have h1 := (mem_borderEdges _ _ _ _).mp he
      rw [if_pos h1.1, h1.1]
      exact ⟨h1.2.1, by omega⟩

/-- Skipping a visited face keeps the parity invariant. -/
theorem parityInv_skip (faces : List Face) (p : Nat → Bool) (root : Nat) (k : Int)
    (info : Nat → FaceInfo2) (fh : Nat) (q : List Nat) (b : List Edge)
    (h : ParityInv faces p root k info (fh :: q) b) :
    ParityInv faces p root k info q b :=
  ⟨h.labelled, fun g hg => h.queued g (List.mem_cons_of_mem _ hg), h.borderEdge⟩

/-- At the end of a sweep the border-list invariant holds. -/
theorem outerInv_of_floodInv (faces : List Face) (k : Int) (info : Nat → FaceInfo2)
    (b : List Edge) (h : FloodInv faces k info [] b) : OuterInv faces info b := by
  refine ⟨fun f => (h.range f).1, ?_, h.sorted, ?_, ?_, h.freeEq, h.consNear⟩
  · intro e he
    refine ⟨(h.borderNear e he).1, fun f => ?_⟩
    have h1 := (h.borderNear e he).2
    have h2 := (h.range f).2
    omega
  · intro f g hmem hf hg
    rcases (h.pending f g hmem hf hg).1 with h1 | h1
    · exact h1
    · cases h1
  · intro f g hmem hf hg
    have h1 := (h.front f g hmem hf hg).1
    cases h1

/-- The border-list invariant starts the sweep seeded from the head edge. -/
theorem floodInv_of_outerInv (faces : List Face) (info : Nat → FaceInfo2) (e : Edge)
    (rest : List Edge) (h : OuterInv faces info (e :: rest)) :
    FloodInv faces ((info e.1).nesting_level + 1) info [e.2] rest := by
  have hhead := h.borderNear e (List.mem_cons_self _ _)
  have hsorted := List.pairwise_cons.mp h.sorted
  constructor
  · intro f
    exact ⟨h.lower f, hhead.2 f⟩
  · intro x hx
    refine ⟨(h.borderNear x (List.mem_cons_of_mem _ hx)).1, ?_⟩
    have := hsorted.1 x hx
    omega
  · exact hsorted.2
  · intro f g hmem hf hg
    rcases List.mem_cons.mp (h.pending f g hmem hf hg) with h1 | h1
    · have hf1 : f = e.1 := by rw [← h1]
      have hg1 : g = e.2 := by rw [← h1]
      refine ⟨Or.inr (by rw [hg1]; exact List.mem_singleton_self _), ?_⟩
      rw [hf1]
      omega
    · refine ⟨Or.inl h1, ?_⟩
      have := hsorted.1 (f, g) h1
      simp only at this
      omega
  · intro f g hmem hf hg
    exact absurd hg (h.closed f g hmem hf)
  · exact h.freeEq
  · exact h.consNear

/-- Dropping a border edge whose far side is visited keeps the invariant. -/
theorem outerInv_tail (faces : List Face) (info : Nat → FaceInfo2) (e : Edge)
    (rest : List Edge) (h : OuterInv faces info (e :: rest))
    (he : (info e.2).nesting_level ≠ -1) : OuterInv faces info rest := by
  refine ⟨h.lower, fun x hx => h.borderNear x (List.mem_cons_of_mem _ hx),
    (List.pairwise_cons.mp h.sorted).2, ?_, h.closed, h.freeEq, h.consNear⟩
  intro f g hmem hf hg
  rcases List.mem_cons.mp (h.pending f g hmem hf hg) with h1 | h1
  · have hg1 : g = e.2 := by rw [← h1]
    exact absurd (hg1 ▸ hg) he
  · exact h1

/-- The far side of a border edge has the parity of the next level. -/
theorem parityInv_of_outerParity (faces : List Face) (p : Nat → Bool)
    (hcol : TwoColouring faces p) (root : Nat) (info : Nat → FaceInfo2) (e : Edge)
    (rest : List Edge) (h : OuterParity faces p root info (e :: rest)) :
    ParityInv faces p root ((info e.1).nesting_level + 1) info [e.2] rest := by
  refine ⟨h.labelled, ?_, fun x hx => h.borderEdge x (List.mem_cons_of_mem _ hx)⟩
  intro g hg
  rw [List.mem_singleton] at hg
  subst hg
  have h1 := h.borderEdge e (List.mem_cons_self _ _)
  have h2 := h.labelled e.1 h1.2
  have h3 : ¬ (p e.2 = p e.1) := fun heq => by
    have := (hcol e.1 e.2 true h1.1).mp heq
    cases this
  have h4 : ((info e.1).nesting_level + 1) % 2 = 0 ↔ ¬ ((info e.1).nesting_level % 2 = 0) := by
    omega
  rw [h4, h2]
  cases h5 : p e.1 <;> cases h6 : p e.2 <;> cases h7 : p root <;> simp_all

/-- At the end of a sweep the parity invariant of the border loop holds. -/
theorem outerParity_of_parityInv (faces : List Face) (p : Nat → Bool) (root : Nat) (k : Int)
    (info : Nat → FaceInfo2) (b : List Edge) (h : ParityInv faces p root k info [] b) :
    OuterParity faces p root info b :=
  ⟨h.labelled, h.borderEdge⟩

/-- The iteration bound of a sweep covers a queue of one face. -/
theorem floodMeasure_le_floodFuel (faces : List Face) (info : Nat → FaceInfo2) (start : Nat) :
    floodMeasure faces info [start] ≤ floodFuel faces := by
  unfold floodMeasure floodFuel
  have := unvisitedWeight_le (fun f => 1 + (edgesOf faces f).length) info faces.length
  simp only [List.length_singleton]
  omega

/-- One call of the helper from a state that satisfies the flood invariants. -/
theorem markDomainsFrom_spec (faces : List Face) (hsym : AdjacencySymmetric faces)
    (root : Nat) (k : Int) (hk : 0 ≤ k) (info : Nat → FaceInfo2) (start : Nat)
    (border : List Edge) (h : FloodInv faces k info [start] border)
    (hp : ∀ p, TwoColouring faces p → ParityInv faces p root k info [start] border) :
    ∃ info1 b1, markDomainsFrom faces info start k border = some (info1, b1) ∧
      OuterInv faces info1 b1 ∧ (∀ p, TwoColouring faces p → OuterParity faces p root info1 b1) ∧
      borderMeasure faces info1 b1 ≤ borderMeasure faces info border := by
  obtain ⟨info1, b1, hrun, hP, hm⟩ := floodLoop_spec faces k (by omega)
    (fun i q b => FloodInv faces k i q b ∧
      ∀ p, TwoColouring faces p → ParityInv faces p root k i q b)
    (fun i fh q b hP hfh => ⟨floodInv_label faces hsym k hk i fh q b hP.1 hfh,
      fun p hcol => parityInv_label faces p hcol root k hk i fh q b (hP.2 p hcol) hfh⟩)
    (fun i fh q b hP hfh => ⟨floodInv_skip faces k i fh q b hP.1 hfh,
      fun p hcol => parityInv_skip faces p root k i fh q b (hP.2 p hcol)⟩)
    (floodFuel faces) info [start] border ⟨h, hp⟩ (floodMeasure_le_floodFuel faces info start)
  exact ⟨info1, b1, hrun, outerInv_of_floodInv faces k info1 b1 hP.1,
    fun p hcol => outerParity_of_parityInv faces p root k info1 b1 (hP.2 p hcol), hm⟩

/-- The border-list loop with enough iterations returns, and its invariants hold at
the end with an empty list. -/
theorem borderLoop_spec (faces : List Face) (hsym : AdjacencySymmetric faces) (root : Nat) :
    ∀ fuel info border, OuterInv faces info border →
      (∀ p, TwoColouring faces p → OuterParity faces p root info border) →
      borderMeasure faces info border ≤ fuel →
      ∃ info1, borderLoop faces fuel info border = some info1 ∧ OuterInv faces info1 [] ∧
        (∀ p, TwoColouring faces p → OuterParity faces p root info1 []) := by
  intro fuel
  induction fuel with
  | zero =>
    intro info border h hp hm
    cases border with
    | nil => exact ⟨info, rfl, h, hp⟩
    | cons e rest => simp [borderMeasure] at hm
  | succ fuel ih =>
    intro info border h hp hm
    cases border with
    | nil => exact ⟨info, rfl, h, hp⟩
    | cons e rest =>
      have hm1 : borderMeasure faces info rest ≤ fuel := by
        simp only [borderMeasure, List.length_cons] at hm ⊢
        omega
      by_cases he : (info e.2).nesting_level = -1
      · have hnear := h.borderNear e (List.mem_cons_self _ _)
        have hlow := h.lower e.1
        obtain ⟨info1, b1, hrun, hO, hOp, hmeas⟩ := markDomainsFrom_spec faces hsym root
          ((info e.1).nesting_level + 1) (by omega) info e.2 rest
          (floodInv_of_outerInv faces info e rest h)
          (fun p hcol => parityInv_of_outerParity faces p hcol root info e rest (hp p hcol))
        obtain ⟨info2, hrun2, hO2, hOp2⟩ := ih info1 b1 hO hOp (by omega)
        refine ⟨info2, ?_, hO2, hOp2⟩
        simp only [borderLoop, if_pos he, hrun]
        exact hrun2
      · obtain ⟨info2, hrun2, hO2, hOp2⟩ := ih info rest (outerInv_tail faces info e rest h he)
          (fun p hcol => ⟨(hp p hcol).labelled,
            fun x hx => (hp p hcol).borderEdge x (List.mem_cons_of_mem _ hx)⟩) hm1
        refine ⟨info2, ?_, hO2, hOp2⟩
        simp only [borderLoop, if_neg he]
        exact hrun2

/-- The sweep invariant holds before the first sweep. -/
theorem floodInv_init (faces : List Face) (root : Nat) :
    FloodInv faces 0 (fun _ => ⟨-1⟩) [root] [] := by
  constructor
  · intro f; exact ⟨by simp, by simp⟩
  · intro e he; cases he
  · exact List.Pairwise.nil
  · intro f g _ hf; exact absurd rfl hf
  · intro f g _ hf; exact absurd rfl hf
  · intro f g _ hf; exact absurd rfl hf
  · intro f g _ hf; exact absurd rfl hf

/-- The parity invariant holds before the first sweep. -/
theorem parityInv_init (faces : List Face) (p : Nat → Bool) (root : Nat) :
    ParityInv faces p root 0 (fun _ => ⟨-1⟩) [root] [] := by
  constructor
  · intro f hf; exact absurd rfl hf
  · intro g hg
    rw [List.mem_singleton] at hg
    subst hg
    simp
  · intro e he; cases he

/-- The iteration bound of the border loop covers the initial measure. -/
theorem borderMeasure_init (faces : List Face) :
    borderMeasure faces (fun _ => ⟨-1⟩) [] ≤ borderFuel faces := by
  unfold borderMeasure borderFuel
  have := unvisitedWeight_le (fun f => (edgesOf faces f).length) (fun _ => ⟨-1⟩) faces.length
  simp only [List.length_nil]
  omega

/-! ### Levels across edges -/

/-- C4, as the modelled classifier has it: on a triangulation whose adjacency is
symmetric `markDomains` returns, and in its result two adjacent labelled faces have
equal nesting levels when their shared edge is free and nesting levels that differ by
at most 1 when it is constrained; the difference is exactly 1 when the constrained
edges are closed boundaries, that is when they separate two classes of faces. -/
theorem markDomains_levels (cdt : CDT) (hsym : cdt.AdjacencySymmetric) :
    ∃ r, markDomains cdt = some r ∧ r.faces = cdt.faces ∧
      (∀ f g, (g, false) ∈ edgesOf cdt.faces f →
        (r.info f).nesting_level ≠ -1 → (r.info g).nesting_level ≠ -1 →
        (r.info f).nesting_level = (r.info g).nesting_level) ∧
      (∀ f g, (g, true) ∈ edgesOf cdt.faces f →
        (r.info f).nesting_level ≠ -1 → (r.info g).nesting_level ≠ -1 →
        |(r.info f).nesting_level - (r.info g).nesting_level| ≤ 1) ∧
      (∀ p, cdt.ClosedBoundaries p → ∀ f g, (g, true) ∈ edgesOf cdt.faces f →
        (r.info f).nesting_level ≠ -1 → (r.info g).nesting_level ≠ -1 →
        |(r.info f).nesting_level - (r.info g).nesting_level| = 1) := by
  have hs := adjacencySymmetric_of cdt hsym
  obtain ⟨info1, b1, hrun1, hO1, hOp1, hm1⟩ := markDomainsFrom_spec cdt.faces hs
    cdt.infinite_face 0 (Int.le_refl 0) (fun _ => ⟨-1⟩) cdt.infinite_face []
    (floodInv_init cdt.faces cdt.infinite_face)
    (fun p _ => parityInv_init cdt.faces p cdt.infinite_face)
  obtain ⟨info2, hrun2, hO2, hOp2⟩ := borderLoop_spec cdt.faces hs cdt.infinite_face
    (borderFuel cdt.faces) info1 b1 hO1 hOp1
    (Nat.le_trans hm1 (borderMeasure_init cdt.faces))
  refine ⟨{ cdt with info := info2 }, ?_, rfl, hO2.freeEq, ?_, ?_⟩
  · simp only [markDomains, hrun1, hrun2, Option.map_some']
  · intro f g hmem hf hg
    have := hO2.consNear f g hmem hf hg
    show |(info2 f).nesting_level - (info2 g).nesting_level| ≤ 1
    rw [abs_le]
    constructor <;> omega
  · intro p hp f g hmem hf hg
    have hcol := twoColouring_of cdt p hp
    have h1 := hO2.consNear f g hmem hf hg
    have h2 := (hOp2 p hcol).labelled f hf
    have h3 := (hOp2 p hcol).labelled g hg
    have h4 : ¬ (p g = p f) := fun heq => by
      have := (hcol f g true hmem).mp heq
      cases this
    have h5 : (info2 f).nesting_level ≠ (info2 g).nesting_level := by
      intro heq
      rw [heq] at h2
      apply h4
      by_cases h6 : (info2 g).nesting_level % 2 = 0
      · rw [h3.mp h6, h2.mp h6]
      · have h7 : ¬ (p g = p cdt.infinite_face) := fun h => h6 (h3.mpr h)
        have h8 : ¬ (p f = p cdt.infinite_face) := fun h => h6 (h2.mpr h)
        cases h9 : p g <;> cases h10 : p f <;> cases h11 : p cdt.infinite_face <;> simp_all
    show |(info2 f).nesting_level - (info2 g).nesting_level| = 1
    rcases abs_cases ((info2 f).nesting_level - (info2 g).nesting_level) with ⟨h6, _⟩ | ⟨h6, _⟩
    · rw [h6]; omega
    · rw [h6]; omega

/-- C4 on the triangle with a triangular hole: its adjacency is symmetric, so the
level relations hold in the result of `markDomains`. -/
theorem markDomains_levels_witness :
    annulus.AdjacencySymmetric ∧
    ∃ r, markDomains annulus = some r ∧ r.faces = annulus.faces ∧
      (∀ f g, (g, false) ∈ edgesOf annulus.faces f →
        (r.info f).nesting_level ≠ -1 → (r.info g).nesting_level ≠ -1 →
        (r.info f).nesting_level = (r.info g).nesting_level) ∧
      (∀ f g, (g, true) ∈ edgesOf annulus.faces f →
        (r.info f).nesting_level ≠ -1 → (r.info g).nesting_level ≠ -1 →
        |(r.info f).nesting_level - (r.info g).nesting_level| ≤ 1) ∧
      (∀ p, annulus.ClosedBoundaries p → ∀ f g, (g, true) ∈ edgesOf annulus.faces f →
        (r.info f).nesting_level ≠ -1 → (r.info g).nesting_level ≠ -1 →
        |(r.info f).nesting_level - (r.info g).nesting_level| = 1) :=
  ⟨by decide, markDomains_levels annulus (by decide)⟩

/-- C4, the claim as stated fails: in the triangulation of three points with the one
constraint `p0 p1` the adjacency is symmetric, the triangle (face `0`) and the
infinite face `1` share the constrained edge, and `markDomains` labels both `0`: the
levels across a constrained edge differ by 0, not by 1. -/
theorem markDomains_constrained_edge_equal_levels :
    oneConstraint.AdjacencySymmetric ∧ (1, true) ∈ edgesOf oneConstraint.faces 0 ∧
    (markDomains oneConstraint).map
      (fun r => ((r.info 0).nesting_level, (r.info 1).nesting_level)) = some (0, 0) := by
  decide

/-- A sweep never changes the label of a visited face. -/
theorem floodLoop_keeps (faces : List Face) (index : Int) (f : Nat) :
    ∀ fuel info q b info1 b1, (info f).nesting_level ≠ -1 →
      floodLoop faces index fuel info q b = some (info1, b1) →
      (info1 f).nesting_level = (info f).nesting_level := by
  intro fuel
  induction fuel with
  | zero =>
    intro info q b info1 b1 _ hrun
    cases q with
    | nil =>
      simp only [floodLoop, Option.some.injEq, Prod.mk.injEq] at hrun
      rw [← hrun.1]
    | cons fh q => simp [floodLoop] at hrun
  | succ fuel ih =>
    intro info q b info1 b1 hf hrun
    cases q with
    | nil =>
      simp only [floodLoop, Option.some.injEq, Prod.mk.injEq] at hrun
      rw [← hrun.1]
    | cons fh q =>
      by_cases hfh : (info fh).nesting_level = -1
      · simp only [floodLoop, if_pos hfh] at hrun
        have hne : f ≠ fh := fun heq => hf (heq ▸ hfh)
        have hupd : (Function.update info fh ⟨index⟩ f).nesting_level
            = (info f).nesting_level := by
          rw [level_update, if_neg hne]
        rw [← hupd]
        exact ih _ _ _ info1 b1 (by rw [hupd]; exact hf) hrun
      · simp only [floodLoop, if_neg hfh] at hrun
        exact ih _ _ _ info1 b1 hf hrun

/-- The border-list loop never changes the label of a visited face. -/
theorem borderLoop_keeps (faces : List Face) (f : Nat) :
    ∀ fuel info border info1, (info f).nesting_level ≠ -1 →
      borderLoop faces fuel info border = some info1 →
      (info1 f).nesting_level = (info f).nesting_level := by
  intro fuel
  induction fuel with
  | zero =>
    intro info border info1 _ hrun
    cases border with
    | nil =>
      simp only [borderLoop, Option.some.injEq] at hrun
      rw [← hrun]
    | cons e rest => simp [borderLoop] at hrun
  | succ fuel ih =>
    intro info border info1 hf hrun
    cases border with
    | nil =>
      simp only [borderLoop, Option.some.injEq] at hrun
      rw [← hrun]
    | cons e rest =>
      by_cases he : (info e.2).nesting_level = -1
      · simp only [borderLoop, if_pos he] at hrun
        cases hsweep : markDomainsFrom faces info e.2 ((info e.1).nesting_level + 1) rest with
        | none => simp [hsweep] at hrun
        | some r =>
          obtain ⟨info2, b2⟩ := r
          simp only [hsweep] at hrun
          have h1 := floodLoop_keeps faces _ f _ _ _ _ info2 b2 hf hsweep
          rw [← h1]
          exact ih info2 b2 info1 (by rw [h1]; exact hf) hrun
      · simp only [borderLoop, if_neg he] at hrun
        exact ih info rest info1 hf hrun

/-- The classifier labels the outer infinite face `0` and leaves no labelled face with
an unlabelled neighbour: on a triangulation whose adjacency is symmetric, every face
joined to the infinite face by a chain of edges is labelled. -/
theorem markDomains_labels (cdt : CDT) (hsym : cdt.AdjacencySymmetric) :
    ∃ r, markDomains cdt = some r ∧
      (r.info cdt.infinite_face).nesting_level = 0 ∧
      ∀ f g c, (g, c) ∈ edgesOf cdt.faces f →
        (r.info f).nesting_level ≠ -1 → (r.info g).nesting_level ≠ -1 := by
  have hs := adjacencySymmetric_of cdt hsym
  obtain ⟨info1, b1, hrun1, hO1, hOp1, hm1⟩ := markDomainsFrom_spec cdt.faces hs
    cdt.infinite_face 0 (Int.le_refl 0) (fun _ => ⟨-1⟩) cdt.infinite_face []
    (floodInv_init cdt.faces cdt.infinite_face)
    (fun p _ => parityInv_init cdt.faces p cdt.infinite_face)
  obtain ⟨info2, hrun2, hO2, _⟩ := borderLoop_spec cdt.faces hs cdt.infinite_face
    (borderFuel cdt.faces) info1 b1 hO1 hOp1
    (Nat.le_trans hm1 (borderMeasure_init cdt.faces))
  have hroot1 : (info1 cdt.infinite_face).nesting_level = 0 := by
    have hstep : floodLoop cdt.faces 0 (floodFuel cdt.faces) (fun _ => ⟨-1⟩)
        [cdt.infinite_face] [] = some (info1, b1) := hrun1
    unfold floodFuel at hstep
    simp only [floodLoop, if_true] at hstep
    have h1 := floodLoop_keeps cdt.faces 0 cdt.infinite_face _ _ _ _ info1 b1
      (by rw [level_update, if_pos rfl]; decide) hstep
    rw [h1, level_update, if_pos rfl]
  have hroot2 : (info2 cdt.infinite_face).nesting_level = 0 := by
    rw [borderLoop_keeps cdt.faces cdt.infinite_face _ _ _ info2 (by rw [hroot1]; decide) hrun2]
    exact hroot1
  refine ⟨{ cdt with info := info2 }, ?_, hroot2, ?_⟩
  · simp only [markDomains, hrun1, hrun2, Option.map_some']
  · intro f g c hmem hf hg
    cases c with
    | false => exact hO2.closed f g hmem hf hg
    | true =>
      have := hO2.pending f g hmem hf hg
      cases this

/-- The levels of the triangle with a hole: `0` outside, `1` in the ring, `2` in the
hole; the constrained edges of this triangulation are closed boundaries. -/
theorem markDomains_annulus_levels :
    (markDomains annulus).map levels = some [0, 0, 0, 1, 1, 1, 1, 1, 1, 2] ∧
    annulus.ClosedBoundaries (fun f => decide (3 ≤ f ∧ f ≤ 8)) := by
  decide

end triangulation2d
end cgal

namespace viewer

/-! ### Managers -/

/-- The value `addManager` returns is the old size of `managers`, reduced modulo
`2 ^ 32` by the conversions to `int` and to `unsigned int`. -/
theorem toUInt32_toInt32_succ_sub_one (n : Nat) :
    toUInt32 (toInt32 ((n + 1 : Nat) : Int) - 1) = n % 2 ^ 32 := by
  unfold toUInt32 toInt32
  norm_num
  omega

/-- C5: `getManager(i)` is the `i`-th element of `managers` (the list `addManager`
appends to, so the `i`-th manager added) when `i` is below the number of managers,
and `nullptr` for every other index. -/
theorem getManager_eq (w : MainWindow) (i : Nat) :
    (∀ h : i < w.managers.length, w.getManager i = w.managers[i]) ∧
    (w.managers.length ≤ i → w.getManager i = nullptr) := by
  constructor
  · intro h
    simp [MainWindow.getManager, h]
  · intro h
    have h1 : ¬ i < w.managers.length := by omega
    simp [MainWindow.getManager, h1]

/-- C6: for a frame `f` (a non-null pointer) and a window whose number of managers
fits the `unsigned int` return type, `addManager(f, name)` returns an id such that
`getManager(id)` is `f`, the id is the number of managers before the call, and
`getManager` is unchanged on every index below that number. -/
theorem addManager_getManager (w : MainWindow) (f : QFramePtr) (name : String)
    (hf : f ≠ nullptr) (hsize : w.managers.length < 2 ^ 32) :
    ∃ w1 id, w.addManager f name = some (w1, id) ∧
      w1.getManager id = f ∧
      id = w.managers.length ∧
      ∀ j, j < w.managers.length → w1.getManager j = w.getManager j := by
  have hid : toUInt32 (toInt32 (((w.managers ++ [f]).length : Nat) : Int) - 1)
      = w.managers.length := by
    rw [List.length_append, List.length_singleton, toUInt32_toInt32_succ_sub_one]
    exact Nat.mod_eq_of_lt hsize
  refine ⟨{ w with managers := w.managers ++ [f] }, w.managers.length, ?_, ?_, rfl, ?_⟩
  · simp only [MainWindow.addManager, if_neg hf]
    rw [hid]
  · simp [MainWindow.getManager]
  · intro j hj
    have hj1 : j < (w.managers ++ [f]).length := by
      rw [List.length_append]; omega
    simp only [MainWindow.getManager, hj, hj1, dite_true]
    exact List.getElem_append_left hj

/-- C6 on a window with one manager: the frame `9` is not null, one manager fits
`unsigned int`, and the second manager gets the id `1`. -/
theorem addManager_getManager_witness :
    (9 : QFramePtr) ≠ nullptr ∧ oneManager.managers.length < 2 ^ 32 ∧
    ∃ w1 id, oneManager.addManager 9 "tool" = some (w1, id) ∧
      w1.getManager id = 9 ∧
      id = oneManager.managers.length ∧
      ∀ j, j < oneManager.managers.length → w1.getManager j = oneManager.getManager j :=
  ⟨by decide, by decide, addManager_getManager oneManager 9 "tool" (by decide) (by decide)⟩

/-! ### Drawable objects -/

theorem bimapRightContains_insert_of_contains (m : List (Int × DrawableObjectPtr)) (k : Int)
    (o obj : DrawableObjectPtr) (h : bimapRightContains m obj = true) :
    bimapRightContains (bimapInsert m k o) obj = true := by
  unfold bimapInsert
  split
  · exact h
  · unfold bimapRightContains at *
    rw [List.any_append, h, Bool.true_or]

theorem bimapRightContains_insert_self (m : List (Int × DrawableObjectPtr)) (k : Int)
    (obj : DrawableObjectPtr) (hk : ∀ e ∈ m, e.1 ≠ k) :
    bimapRightContains (bimapInsert m k obj) obj = true := by
  unfold bimapInsert
  split
  · rename_i hany
    rw [List.any_eq_true] at hany
    obtain ⟨e, he, hcond⟩ := hany
    unfold bimapRightContains
    rw [List.any_eq_true]
    refine ⟨e, he, ?_⟩
    rcases Bool.or_eq_true _ _ |>.mp hcond with h1 | h2
    · exact absurd (by simpa using h1) (hk e he)
    · exact h2
  · unfold bimapRightContains
    simp

theorem mem_bimapInsert (m : List (Int × DrawableObjectPtr)) (k : Int)
    (o : DrawableObjectPtr) (e : Int × DrawableObjectPtr) (he : e ∈ bimapInsert m k o) :
    e ∈ m ∨ e = (k, o) := by
  unfold bimapInsert at he
  split at he
  · exact Or.inl he
  · simpa using he

theorem createCheckBoxAndLinkSignal_contains (w : MainWindow) (o obj : DrawableObjectPtr)
    (name : String) (c : Bool) (h : w.containsDrawableObject obj = true) :
    (w.createCheckBoxAndLinkSignal o name c).containsDrawableObject obj = true :=
  bimapRightContains_insert_of_contains w.mapObjects w.nCheckBoxes o obj h

theorem addContainerCheckBoxes_contains (cont : DrawableContainer) (w : MainWindow)
    (obj : DrawableObjectPtr) (h : w.containsDrawableObject obj = true) :
    (w.addContainerCheckBoxes cont).containsDrawableObject obj = true := by
  induction cont generalizing w with
  | nil => exact h
  | cons item rest ih =>
    exact ih _ (createCheckBoxAndLinkSignal_contains w item.1 obj item.2.1 item.2.2 h)

/-- The constructor establishes `KeysBelowCounter`. -/
theorem keysBelowCounter_init : MainWindow.init.KeysBelowCounter := by
  intro e he
  simp [MainWindow.init] at he

theorem createCheckBoxAndLinkSignal_keysBelowCounter (w : MainWindow) (o : DrawableObjectPtr)
    (name : String) (c : Bool) (h : w.KeysBelowCounter) :
    (w.createCheckBoxAndLinkSignal o name c).KeysBelowCounter := by
  intro e he
  show e.1 < w.nCheckBoxes + 1
  rcases mem_bimapInsert _ _ _ _ he with h1 | h1
  · have := h e h1
    omega
  · rw [h1]
    show w.nCheckBoxes < w.nCheckBoxes + 1
    omega

theorem addContainerCheckBoxes_keysBelowCounter (cont : DrawableContainer) (w : MainWindow)
    (h : w.KeysBelowCounter) : (w.addContainerCheckBoxes cont).KeysBelowCounter := by
  induction cont generalizing w with
  | nil => exact h
  | cons item rest ih =>
    exact ih _ (createCheckBoxAndLinkSignal_keysBelowCounter w item.1 item.2.1 item.2.2 h)

/-- The invariant `KeysBelowCounter` is kept by `pushDrawableObject`. -/
theorem pushDrawableObject_keysBelowCounter
    (asContainer : DrawableObjectPtr → Option DrawableContainer) (w : MainWindow)
    (obj : DrawableObjectPtr) (name : String) (c : Bool) (h : w.KeysBelowCounter) :
    (w.pushDrawableObject asContainer obj name c).KeysBelowCounter := by
  unfold MainWindow.pushDrawableObject
  split
  · cases asContainer obj with
    | none => exact createCheckBoxAndLinkSignal_keysBelowCounter w obj name c h
    | some cont =>
      exact addContainerCheckBoxes_keysBelowCounter cont _
        (createCheckBoxAndLinkSignal_keysBelowCounter w obj name c h)
  · exact h

/-- C7: in a window whose `mapObjects` keys are all below `nCheckBoxes`, after
`pushDrawableObject(obj, name, checked)` with `obj` not null the call
`containsDrawableObject(obj)` returns true, whether or not `obj` is a container; and
`pushDrawableObject(nullptr, name, checked)` leaves `mapObjects`, `checkBoxes` and
`nCheckBoxes` as they were. -/
theorem pushDrawableObject_contains
    (asContainer : DrawableObjectPtr → Option DrawableContainer) (w : MainWindow)
    (obj : DrawableObjectPtr) (name : String) (checked : Bool)
    (hobj : obj ≠ nullptr) (hkeys : w.KeysBelowCounter) :
    (w.pushDrawableObject asContainer obj name checked).containsDrawableObject obj = true ∧
    (w.pushDrawableObject asContainer nullptr name checked).mapObjects = w.mapObjects ∧
    (w.pushDrawableObject asContainer nullptr name checked).checkBoxes = w.checkBoxes ∧
    (w.pushDrawableObject asContainer nullptr name checked).nCheckBoxes = w.nCheckBoxes := by
  have hnull : w.pushDrawableObject asContainer nullptr name checked = w := by
    simp [MainWindow.pushDrawableObject]
  refine ⟨?_, by rw [hnull], by rw [hnull], by rw [hnull]⟩
  have h1 : (w.createCheckBoxAndLinkSignal obj name checked).containsDrawableObject obj
      = true := by
    apply bimapRightContains_insert_self
    intro e he
    exact ne_of_lt (hkeys e he)
  unfold MainWindow.pushDrawableObject
  rw [if_pos hobj]
  cases asContainer obj with
  | none => exact h1
  | some cont => exact addContainerCheckBoxes_contains cont _ obj h1

/-- C7 on a window that already shows the object `5` under the key `0`: pushing the
container `8`, which holds the objects `5` and `6`, makes `8` contained. -/
theorem pushDrawableObject_contains_witness :
    (8 : DrawableObjectPtr) ≠ nullptr ∧ oneObject.KeysBelowCounter ∧
    (oneObject.pushDrawableObject containerAtEight 8 "box" true).containsDrawableObject 8
      = true ∧
    (oneObject.pushDrawableObject containerAtEight nullptr "box" true).mapObjects
      = oneObject.mapObjects ∧
    (oneObject.pushDrawableObject containerAtEight nullptr "box" true).checkBoxes
      = oneObject.checkBoxes ∧
    (oneObject.pushDrawableObject containerAtEight nullptr "box" true).nCheckBoxes
      = oneObject.nCheckBoxes :=
  ⟨by decide, by decide,
    pushDrawableObject_contains containerAtEight oneObject 8 "box" true (by decide) (by decide)⟩

end viewer

end cg3
